import Mathlib

/-!
Verification of `lib/go/thrift/socket_conn.go`.

The Go file defines `socketConn`, a wrapper around a `net.Conn` that adds a
one-byte peek buffer (`buf`, a `bytes.Buffer`) used by connectivity checks.
We embed the wrapper state and its operations (`Read` on the positive-length
path, `CheckReadable`, `isValid`/`IsOpen`, `wrapSocketConn`,
`createSocketConnFromReturn`) as executable Lean definitions and prove the
specified properties about them.

The underlying `net.Conn` is modelled as a deterministic oracle: a queue
`recvq` of bytes the wire will deliver in order, plus a `plan` listing the
outcome of each successive wire `Read` call (how many bytes it delivers off
the front of `recvq`, capped by the requested length, and which error it
returns).  Quantifying over plans covers arbitrary partial reads and error
interleavings.  The read deadline is tracked as `Option Nat`
(`none` = the zero `time.Time`, i.e. no deadline).
-/

set_option maxHeartbeats 1000000

/-- Errors that connection operations can return, standing in for Go `error`
values: `io.EOF`, deadline-timeout errors, connection-closed errors, and any
other error (tagged by a code so distinct errors exist). `Option GoErr` plays
the role of a Go `error` result, with `none` = `nil`. -/
inductive GoErr where
  | eof
  | timeout
  | closed
  | other (code : Nat)
  deriving DecidableEq, Repr

/-- Model of a raw `net.Conn` (e.g. a `*net.TCPConn`): `recvq` is the sequence
of bytes the wire will deliver in order; `plan` gives, for each successive
`Read` call on the conn, the number of bytes it delivers (capped by the
request and by what remains of `recvq`) and the error it returns; `deadline`
is the current read deadline (`none` models the zero `time.Time`). -/
structure NetConn where
  recvq : List Nat
  plan : List (Nat × Option GoErr)
  deadline : Option Nat
  deriving DecidableEq, Repr

/-- Model of `net.Conn.Read`: consume the head of `plan`, deliver that
many bytes (capped by the requested length `req`) off the front of `recvq`,
and return the planned error.  With the plan exhausted the conn behaves as
closed and delivers nothing. -/
def netRead (c : NetConn) (req : Nat) : List Nat × Option GoErr × NetConn :=
  match c.plan with
  | [] => ([], some GoErr.closed, c)
  | (k, e) :: rest =>
    (c.recvq.take (min k req), e,
      { c with recvq := c.recvq.drop (min k req), plan := rest })

/-- State of a `socketConn` value: `conn` is the embedded `net.Conn` field
(`none` models a nil interface), `buf` is the `bytes.Buffer` holding pending
probed bytes, front of the list = next byte out. -/
structure SocketConn where
  conn : Option NetConn
  buf : List Nat
  deriving DecidableEq, Repr

/-- Model of `bytes.Buffer.Read` into a destination of length `len`: if the buffer is
empty it returns `(0, io.EOF)` (or `(0, nil)` when `len = 0`); otherwise it
copies `min len (buffer size)` bytes from the front and returns no error.
Result: (bytes copied out, remaining buffer, error). -/
def bufRead (buf : List Nat) (len : Nat) : List Nat × List Nat × Option GoErr :=
  if buf.isEmpty then ([], buf, if len = 0 then none else some GoErr.eof)
  else (buf.take len, buf.drop len, none)

/-- Outcome of `socketConn.Read`: `bytes out err s` is a normal return
delivering `out` (so `n = out.length`) with error `err` and post-state `s`;
`probe` marks the `len(p) == 0` branch, which delegates to the
platform-specific `read0` (defined in files not under `src/`, and not needed
by any claim); `panic` marks a nil dereference (method call on a nil
`net.Conn` interface or field access through a nil `*socketConn`). -/
inductive ReadResult where
  | bytes (out : List Nat) (err : Option GoErr) (s : SocketConn)
  | probe
  | panic
  deriving DecidableEq, Repr

/-- Model of `socketConn.Read` (the `len(p) > 0` path, mirrored line by line):
`n, err = sc.buf.Read(p)`; early return if that error is neither nil nor
`io.EOF` (dead for `bytes.Buffer`, kept for fidelity); return `(n, nil)` when
the buffer alone filled `p`; otherwise `sc.Conn.Read(p[n:])` and return the
combined count with the wire error.  Dereferencing a nil `sc.Conn` is a
panic. -/
def sockRead (sc : SocketConn) (len : Nat) : ReadResult :=
  if len = 0 then ReadResult.probe
  else
    match bufRead sc.buf len with
    | (taken, buf1, bufErr) =>
      if bufErr ≠ none ∧ bufErr ≠ some GoErr.eof then
        ReadResult.bytes taken bufErr { sc with buf := buf1 }
      else if taken.length = len then
        ReadResult.bytes taken none { sc with buf := buf1 }
      else
        match sc.conn with
        | none => ReadResult.panic
        | some c =>
          match netRead c (len - taken.length) with
          | (wire, e, c2) =>
            ReadResult.bytes (taken ++ wire) e { sc with buf := buf1, conn := some c2 }

/-- Model of `socketConn.Read` on a possibly-nil `*socketConn` receiver: the method
body starts with `sc.buf.Read(p)`, a field access through the pointer, so a
nil receiver panics. -/
def sockReadPtr : Option SocketConn → Nat → ReadResult
  | none, _ => ReadResult.panic
  | some sc, len => sockRead sc len

/-- Outcome of `socketConn.CheckReadable`: a returned error plus the
post-state, or a nil-dereference panic. -/
inductive CheckResult where
  | ok (err : Option GoErr) (s : SocketConn)
  | panic
  deriving DecidableEq, Repr

/-- Model of `socketConn.CheckReadable(timeout)`, mirrored line by line:
`sc.Conn.SetReadDeadline(time.Now().Add(timeout))` (panics on a nil
`sc.Conn`); `n, err := sc.Read(buf)` with a 1-byte buffer; if `n > 0` append
the byte to `sc.buf`; `sc.Conn.SetReadDeadline(time.Time{})`; return `err`.
`now` is the current time at the call. -/
def checkReadable (sc : SocketConn) (now t : Nat) : CheckResult :=
  match sc.conn with
  | none => CheckResult.panic
  | some c =>
    match sockRead { sc with conn := some { c with deadline := some (now + t) } } 1 with
    | ReadResult.bytes out err s2 =>
      match (if 0 < out.length then { s2 with buf := s2.buf ++ out } else s2 : SocketConn) with
      | s3 =>
        match s3.conn with
        | none => CheckResult.panic
        | some c3 => CheckResult.ok err { s3 with conn := some { c3 with deadline := none } }
    | _ => CheckResult.panic

/-- Model of `socketConn.CheckReadable` on a possibly-nil receiver: the body starts
with `sc.Conn.SetReadDeadline`, a field access through the pointer, so a nil
receiver panics. -/
def checkReadablePtr : Option SocketConn → Nat → Nat → CheckResult
  | none, _, _ => CheckResult.panic
  | some sc, now, t => checkReadable sc now t

/-- Model of `socketConn.isValid`: nil-safe; false if the receiver is nil or the
embedded `net.Conn` is nil. -/
def isValid : Option SocketConn → Bool
  | none => false
  | some sc => sc.conn.isSome

/-- Model of `socketConn.IsOpen`: returns false if `!sc.isValid()`, otherwise returns
whether `sc.checkConn()` is nil.  `checkConn` is platform-specific code not
under `src/`, so it is abstracted as an explicit argument giving its result
on the (valid) receiver. -/
def isOpen (scOpt : Option SocketConn) (checkConn : SocketConn → Option GoErr) : Bool :=
  match scOpt with
  | none => false
  | some sc =>
    match sc.conn with
    | none => false
    | some _ => (checkConn sc).isNone

/-- A `net.Conn` interface value as seen by the constructors: either a raw
connection or a `*socketConn` (whose embedded conn may be nil and may itself
be a further `ConnVal`, so nested wrappers are representable). -/
inductive ConnVal where
  | raw (c : NetConn)
  | sock (conn : Option ConnVal) (buf : List Nat)
  deriving Repr

/-- Model of `wrapSocketConn`: if the argument is already a `*socketConn`, return it
as-is; otherwise allocate `&socketConn{Conn: conn}` (empty buffer). -/
def wrapSocketConn (c : ConnVal) : ConnVal :=
  match c with
  | ConnVal.sock conn buf => ConnVal.sock conn buf
  | ConnVal.raw _ => ConnVal.sock (some c) []

/-- Model of `createSocketConnFromReturn(conn, err)`: on a non-nil error return
`(nil, err)`; otherwise return `&socketConn{Conn: conn}` (a fresh wrapper,
with no already-wrapped check) and nil. -/
def createSocketConnFromReturn (conn : Option ConnVal) (err : Option GoErr) :
    Option ConnVal × Option GoErr :=
  match err with
  | some e => (none, some e)
  | none => (some (ConnVal.sock conn []), none)

/-- The bytes a `net.Conn` model (if present) will still deliver. -/
def recvqOf : Option NetConn → List Nat
  | some c => c.recvq
  | none => []

/-- The bytes a wrapper state has yet to deliver to callers: pending buffer
first, then the wire. -/
def streamOf (s : SocketConn) : List Nat :=
  s.buf ++ recvqOf s.conn

/-- When the pending buffer alone can fill the request, `Read` drains it
FIFO and returns with no error and an untouched connection. -/
theorem sockRead_of_le_buf (sc : SocketConn) (len : Nat) (hlen : 0 < len)
    (h : len ≤ sc.buf.length) :
    sockRead sc len =
      ReadResult.bytes (sc.buf.take len) none { sc with buf := sc.buf.drop len } := by
  cases hb : sc.buf with
  | nil => rw [hb] at h; simp at h; omega
  | cons a tl =>
    have h0 : ¬ len = 0 := by omega
    have hl : (List.take len (a :: tl)).length = len := by
      rw [List.length_take]
      rw [hb] at h
      simp at h ⊢
      omega
    simp [sockRead, bufRead, h0, hb, hl]

/-- When the pending buffer cannot fill the request, `Read` drains all of it
and forwards the remainder of the request to the wire, returning the
combined bytes and the wire's error. -/
theorem sockRead_of_buf_lt (sc : SocketConn) (c : NetConn) (len : Nat)
    (hc : sc.conn = some c) (hlen : 0 < len) (h : sc.buf.length < len) :
    sockRead sc len =
      ReadResult.bytes (sc.buf ++ (netRead c (len - sc.buf.length)).1)
        (netRead c (len - sc.buf.length)).2.1
        { sc with buf := [], conn := some (netRead c (len - sc.buf.length)).2.2 } := by
  rcases hw : netRead c (len - sc.buf.length) with ⟨w, e, c2⟩
  cases hb : sc.buf with
  | nil =>
    have h0 : ¬ len = 0 := by omega
    have h0' : ¬ 0 = len := by omega
    rw [hb] at hw
    simp at hw
    simp [sockRead, bufRead, h0, h0', hb, hc, hw]
  | cons a tl =>
    have h0 : ¬ len = 0 := by omega
    have hlen2 : (a :: tl).length ≤ len := by rw [hb] at h; omega
    have htk : List.take len (a :: tl) = a :: tl := List.take_of_length_le hlen2
    have hdr : List.drop len (a :: tl) = [] := List.drop_eq_nil_of_le hlen2
    have hl : ¬ (tl.length + 1 = len) := by
      rw [hb] at h
      simp at h
      omega
    rw [hb] at hw
    simp at hw
    simp [sockRead, bufRead, h0, hb, hc, hw, htk, hdr, hl]

/-- Claim C1: a positive-length `Read` drains `pending` first in FIFO order;
if `pending` alone fully satisfies the request it returns `(len(buffer), nil)`
without touching the underlying connection; otherwise the remainder is read
from the underlying connection into the unfilled portion and the combined
count is returned together with the underlying read's error. -/
theorem read_drains_pending_first (sc : SocketConn) (c : NetConn) (len : Nat)
    (hc : sc.conn = some c) (hlen : 0 < len) :
    (len ≤ sc.buf.length →
      sockRead sc len =
        ReadResult.bytes (sc.buf.take len) none { sc with buf := sc.buf.drop len } ∧
      (sc.buf.take len).length = len) ∧
    (sc.buf.length < len →
      sockRead sc len =
        ReadResult.bytes (sc.buf ++ (netRead c (len - sc.buf.length)).1)
          (netRead c (len - sc.buf.length)).2.1
          { sc with buf := [], conn := some (netRead c (len - sc.buf.length)).2.2 }) := by
  constructor
  · intro h
    refine ⟨sockRead_of_le_buf sc len hlen h, ?_⟩
    rw [List.length_take]
    omega
  · intro h
    exact sockRead_of_buf_lt sc c len hc hlen h

/-- A fixed raw connection used to instantiate witnesses. -/
def c0 : NetConn := { recvq := [10, 20, 30], plan := [(1, none), (2, none)], deadline := none }

/-- Witness for C1: at `pending = [5, 6]`, a 1-byte read is served from
pending alone, and a 4-byte read drains pending then reads the wire. -/
theorem read_drains_pending_first_witness :
    sockRead { conn := some c0, buf := [5, 6] } 1 =
      ReadResult.bytes [5] none { conn := some c0, buf := [6] } ∧
    sockRead { conn := some c0, buf := [5, 6] } 4 =
      ReadResult.bytes ([5, 6] ++ (netRead c0 2).1) (netRead c0 2).2.1
        { conn := some (netRead c0 2).2.2, buf := [] } :=
  ⟨((read_drains_pending_first { conn := some c0, buf := [5, 6] } c0 1 rfl (by decide)).1
      (by decide)).1,
    (read_drains_pending_first { conn := some c0, buf := [5, 6] } c0 4 rfl (by decide)).2
      (by decide)⟩

/-- Claim C5: wrapping is idempotent.  `wrapSocketConn` returns an already-
wrapped connection unchanged, so double wrapping equals single wrapping and
no nested wrapper is ever created. -/
theorem wrap_idempotent (c : ConnVal) :
    wrapSocketConn (wrapSocketConn c) = wrapSocketConn c ∧
    ∀ (conn : Option ConnVal) (buf : List Nat),
      wrapSocketConn (ConnVal.sock conn buf) = ConnVal.sock conn buf := by
  refine ⟨?_, fun conn buf => rfl⟩
  cases c <;> rfl

/-- Witness for C5 at a concrete raw connection. -/
theorem wrap_idempotent_witness :
    wrapSocketConn (wrapSocketConn (ConnVal.raw c0)) = wrapSocketConn (ConnVal.raw c0) :=
  (wrap_idempotent (ConnVal.raw c0)).1

/-- Claim C6: `createSocketConnFromReturn` with a non-nil error returns
`(nil, err)` with the error unchanged and no wrapper allocated. -/
theorem fromReturn_propagates_error (conn : Option ConnVal) (e : GoErr) :
    createSocketConnFromReturn conn (some e) = (none, some e) := rfl

/-- Witness for C6 at a concrete connection and error. -/
theorem fromReturn_propagates_error_witness :
    createSocketConnFromReturn (some (ConnVal.raw c0)) (some GoErr.closed) =
      (none, some GoErr.closed) :=
  fromReturn_propagates_error (some (ConnVal.raw c0)) GoErr.closed

/-- Counterexample to C7: for a connection that is already a `*socketConn`,
`createSocketConnFromReturn(conn, nil)` does not return `wrap(conn)`: it
allocates a fresh wrapper nested around the existing one, whereas
`wrapSocketConn` would return the existing instance unchanged. -/
theorem fromReturn_ok_rewraps :
    createSocketConnFromReturn (some (ConnVal.sock none [])) none ≠
      (some (wrapSocketConn (ConnVal.sock none [])), none) := by
  simp [createSocketConnFromReturn, wrapSocketConn]

/-- Claim C7 as amended: `createSocketConnFromReturn(conn, nil)` always
returns `(&socketConn{Conn: conn}, nil)` — a freshly allocated wrapper with
empty pending, with no already-wrapped check; this coincides with
`wrapSocketConn(conn)` when `conn` is a raw (non-wrapped) connection, but
not when `conn` is already a wrapper. -/
theorem fromReturn_ok_allocates (conn : Option ConnVal) :
    createSocketConnFromReturn conn none = (some (ConnVal.sock conn []), none) ∧
    ∀ c : NetConn,
      ConnVal.sock (some (ConnVal.raw c)) [] = wrapSocketConn (ConnVal.raw c) :=
  ⟨rfl, fun _ => rfl⟩

/-- Witness for the amended C7 at a concrete raw connection. -/
theorem fromReturn_ok_allocates_witness :
    createSocketConnFromReturn (some (ConnVal.raw c0)) none =
      (some (ConnVal.sock (some (ConnVal.raw c0)) []), none) ∧
    ConnVal.sock (some (ConnVal.raw c0)) [] = wrapSocketConn (ConnVal.raw c0) :=
  ⟨(fromReturn_ok_allocates (some (ConnVal.raw c0))).1,
    (fromReturn_ok_allocates (some (ConnVal.raw c0))).2 c0⟩

/-- Claim C3: with a present underlying connection, `CheckReadable(t)` is
exactly: set the underlying read deadline to `now + t`, attempt a one-byte
read through the `Read` path (pending consulted before the wire), append the
bytes that read delivered to the back of pending, clear the read deadline
unconditionally, and return the read's error. -/
theorem checkReadable_via_read (sc : SocketConn) (c : NetConn) (now t : Nat)
    (hc : sc.conn = some c) :
    ∃ (out : List Nat) (err : Option GoErr) (s2 : SocketConn) (c2 : NetConn),
      sockRead { sc with conn := some { c with deadline := some (now + t) } } 1 =
        ReadResult.bytes out err s2 ∧
      s2.conn = some c2 ∧
      checkReadable sc now t =
        CheckResult.ok err
          { s2 with buf := s2.buf ++ out, conn := some { c2 with deadline := none } } := by
  cases hb : sc.buf with
  | cons a tl =>
    refine ⟨[a], none,
      { sc with conn := some { c with deadline := some (now + t) }, buf := tl },
      { c with deadline := some (now + t) }, ?_, rfl, ?_⟩
    · simp [sockRead, bufRead, hb]
    · simp [checkReadable, hc, sockRead, bufRead, hb]
  | nil =>
    rcases hw : netRead { c with deadline := some (now + t) } 1 with ⟨w, e, c2⟩
    refine ⟨w, e, { sc with buf := [], conn := some c2 }, c2, ?_, rfl, ?_⟩
    · simp [sockRead, bufRead, hb, hw]
    · cases w with
      | nil => simp [checkReadable, hc, sockRead, bufRead, hb, hw]
      | cons b bs => simp [checkReadable, hc, sockRead, bufRead, hb, hw]

/-- Witness for C3 at a concrete state with one pending byte. -/
theorem checkReadable_via_read_witness :
    ∃ (out : List Nat) (err : Option GoErr) (s2 : SocketConn) (c2 : NetConn),
      sockRead { conn := some { c0 with deadline := some (100 + 7) }, buf := [5] } 1 =
        ReadResult.bytes out err s2 ∧
      s2.conn = some c2 ∧
      checkReadable { conn := some c0, buf := [5] } 100 7 =
        CheckResult.ok err
          { s2 with buf := s2.buf ++ out, conn := some { c2 with deadline := none } } :=
  checkReadable_via_read { conn := some c0, buf := [5] } c0 100 7 rfl

/-- Claim C4: whenever the probe's one-byte attempt reads a byte `b` from
the wire (even together with an error `e`), `CheckReadable` stores `b` in
pending, and `b` is the first byte delivered by the next positive-length
`Read`. -/
theorem probe_byte_not_discarded (sc : SocketConn) (c : NetConn) (now t : Nat)
    (b : Nat) (e : Option GoErr) (c2 : NetConn)
    (hc : sc.conn = some c) (hb : sc.buf = [])
    (hw : netRead { c with deadline := some (now + t) } 1 = ([b], e, c2)) :
    checkReadable sc now t =
      CheckResult.ok e { conn := some { c2 with deadline := none }, buf := [b] } ∧
    ∀ len : Nat, 0 < len →
      ∃ (rest : List Nat) (err2 : Option GoErr) (s2 : SocketConn),
        sockRead { conn := some { c2 with deadline := none }, buf := [b] } len =
          ReadResult.bytes (b :: rest) err2 s2 := by
  constructor
  · simp [checkReadable, hc, sockRead, bufRead, hb, hw]
  · intro len hlen
    rcases Nat.lt_or_ge 1 len with h1 | h1
    · rcases hw2 : netRead { c2 with deadline := none } (len - 1) with ⟨w2, e2, c3⟩
      refine ⟨w2, e2, { conn := some c3, buf := [] }, ?_⟩
      have := sockRead_of_buf_lt { conn := some { c2 with deadline := none }, buf := [b] }
        { c2 with deadline := none } len rfl hlen (by simp; omega)
      rw [this]
      simp [hw2]
    · have hlen1 : len = 1 := by omega
      subst hlen1
      refine ⟨[], none, { conn := some { c2 with deadline := none }, buf := [] }, ?_⟩
      have := sockRead_of_le_buf { conn := some { c2 with deadline := none }, buf := [b] }
        1 (by decide) (by simp)
      rw [this]
      simp

/-- Witness for C4: `c0` delivers the byte 10 to a probe on an empty-pending
wrapper; 10 is buffered and heads the next read. -/
theorem probe_byte_not_discarded_witness :
    checkReadable { conn := some c0, buf := [] } 100 7 =
      CheckResult.ok none
        { conn := some { recvq := [20, 30], plan := [(2, none)], deadline := none },
          buf := [10] } ∧
    ∃ (rest : List Nat) (err2 : Option GoErr) (s2 : SocketConn),
      sockRead
        { conn := some { recvq := [20, 30], plan := [(2, none)], deadline := none },
          buf := [10] } 1 = ReadResult.bytes (10 :: rest) err2 s2 := by
  have h := probe_byte_not_discarded { conn := some c0, buf := [] } c0 100 7 10 none
    { recvq := [20, 30], plan := [(2, none)], deadline := some 107 } rfl rfl (by decide)
  exact ⟨h.1, h.2 1 (by decide)⟩

/-- Claim C10: on any wrapper whose pending buffer is non-empty (in every
reachable state that means exactly one byte, see `pending_at_most_one`),
`CheckReadable` returns nil, performs no read on the underlying connection
(its `recvq` and read plan are untouched; only the deadline is set and then
cleared), and leaves the pending buffer's contents identical: the byte it
dequeues through the `Read` path is the byte it re-appends. -/
theorem checkReadable_pending_frame (sc : SocketConn) (c : NetConn) (b : Nat)
    (now t : Nat) (hc : sc.conn = some c) (hb : sc.buf = [b]) :
    checkReadable sc now t =
      CheckResult.ok none { conn := some { c with deadline := none }, buf := sc.buf } := by
  simp [checkReadable, hc, sockRead, bufRead, hb]

/-- Witness for C10 at a concrete one-byte-pending state. -/
theorem checkReadable_pending_frame_witness :
    checkReadable { conn := some c0, buf := [5] } 3 9 =
      CheckResult.ok none
        { conn := some { c0 with deadline := none },
          buf := ({ conn := some c0, buf := [5] } : SocketConn).buf } :=
  checkReadable_pending_frame { conn := some c0, buf := [5] } c0 5 3 9 rfl rfl

/-- Counterexample to C8: with the underlying connection absent, a
positive-length `Read` whose request exceeds pending dereferences the nil
`net.Conn` (as does `CheckReadable`, whose first statement is a method call
on it), and both operations on a nil receiver dereference the nil pointer;
only `IsOpen` is nil-safe. -/
theorem read_check_not_nilsafe :
    sockRead { conn := none, buf := [] } 1 = ReadResult.panic ∧
    checkReadable { conn := none, buf := [] } 0 0 = CheckResult.panic ∧
    checkReadable { conn := none, buf := [5] } 0 0 = CheckResult.panic ∧
    sockReadPtr none 1 = ReadResult.panic ∧
    checkReadablePtr none 0 0 = CheckResult.panic := by
  refine ⟨rfl, rfl, rfl, rfl, rfl⟩

/-- Claim C8 as amended: `IsOpen` is safe when the wrapper or its underlying
connection is absent and returns false, and `Read` completes without
dereferencing the absent connection exactly when pending alone satisfies the
request; `Read` with insufficient pending and `CheckReadable` are not
absent-safe (see `read_check_not_nilsafe`). -/
theorem isOpen_nilsafe_amended :
    (∀ f : SocketConn → Option GoErr, isOpen none f = false) ∧
    (∀ (f : SocketConn → Option GoErr) (sc : SocketConn),
      sc.conn = none → isOpen (some sc) f = false) ∧
    (∀ (sc : SocketConn) (len : Nat), sc.conn = none → 0 < len →
      len ≤ sc.buf.length →
      sockRead sc len =
        ReadResult.bytes (sc.buf.take len) none { sc with buf := sc.buf.drop len }) := by
  refine ⟨fun f => rfl, fun f sc h => ?_, fun sc len _ hlen hle => sockRead_of_le_buf sc len hlen hle⟩
  simp [isOpen, h]

/-- Witness for the amended C8 at concrete absent-connection states. -/
theorem isOpen_nilsafe_amended_witness :
    isOpen none (fun _ => none) = false ∧
    isOpen (some { conn := none, buf := [7] }) (fun _ => none) = false ∧
    sockRead { conn := none, buf := [7] } 1 =
      ReadResult.bytes [7] none { conn := none, buf := [] } :=
  ⟨isOpen_nilsafe_amended.1 (fun _ => none),
    isOpen_nilsafe_amended.2.1 (fun _ => none) { conn := none, buf := [7] } rfl,
    isOpen_nilsafe_amended.2.2 { conn := none, buf := [7] } 1 rfl (by decide) (by decide)⟩

/-- A wire read delivers at most the requested number of bytes, taken off the
front of `recvq`. -/
theorem netRead_spec (c : NetConn) (req : Nat) (w : List Nat) (e : Option GoErr)
    (c2 : NetConn) (h : netRead c req = (w, e, c2)) :
    w.length ≤ req ∧ w ++ c2.recvq = c.recvq := by
  cases hp : c.plan with
  | nil =>
    rw [netRead, hp] at h
    simp at h
    obtain ⟨hw, -, hc2⟩ := h
    subst hw hc2
    simp
  | cons ke rest =>
    rcases ke with ⟨k, er⟩
    rw [netRead, hp] at h
    simp at h
    obtain ⟨hw, -, hc2⟩ := h
    subst hw hc2
    refine ⟨?_, List.take_append_drop _ _⟩
    rw [List.length_take]
    exact le_trans (Nat.min_le_left _ _) (Nat.min_le_right _ _)

/-- A positive-length `Read` on a state whose pending cannot satisfy the
request and whose connection is absent panics (nil dereference). -/
theorem sockRead_panic_of_none (sc : SocketConn) (len : Nat) (hlen : 0 < len)
    (h : sc.buf.length < len) (hc : sc.conn = none) :
    sockRead sc len = ReadResult.panic := by
  cases hb : sc.buf with
  | nil =>
    have h0 : ¬ len = 0 := by omega
    have h0' : ¬ 0 = len := by omega
    simp [sockRead, bufRead, h0, h0', hb, hc]
  | cons a tl =>
    have h0 : ¬ len = 0 := by omega
    have hlen2 : (a :: tl).length ≤ len := by rw [hb] at h; omega
    have htk : List.take len (a :: tl) = a :: tl := List.take_of_length_le hlen2
    have hl : ¬ (tl.length + 1 = len) := by
      rw [hb] at h
      simp at h
      omega
    simp [sockRead, bufRead, h0, hb, hc, htk, hl]

/-- Any successful positive-length `Read` drops exactly the requested length
from pending, delivers at most the requested number of bytes, and conserves
the undelivered stream: output then remaining stream equals the prior
stream. -/
theorem sockRead_bytes_inv (sc : SocketConn) (len : Nat) (out : List Nat)
    (e : Option GoErr) (s2 : SocketConn)
    (h : sockRead sc len = ReadResult.bytes out e s2) :
    s2.buf = sc.buf.drop len ∧ out.length ≤ len ∧ out ++ streamOf s2 = streamOf sc := by
  by_cases h0 : len = 0
  · subst h0
    simp [sockRead] at h
  · have hlen : 0 < len := Nat.pos_of_ne_zero h0
    rcases Nat.lt_or_ge sc.buf.length len with hlt | hge
    · cases hcn : sc.conn with
      | none =>
        rw [sockRead_panic_of_none sc len hlen hlt hcn] at h
        exact absurd h (by simp)
      | some c =>
        rw [sockRead_of_buf_lt sc c len hcn hlen hlt] at h
        rcases hw : netRead c (len - sc.buf.length) with ⟨w, e2, c2⟩
        rw [hw] at h
        simp at h
        obtain ⟨ho, -, hs⟩ := h
        have hns := netRead_spec c (len - sc.buf.length) w e2 c2 hw
        subst ho
        refine ⟨?_, ?_, ?_⟩
        · rw [← hs]
          simp [List.drop_eq_nil_of_le (le_of_lt hlt)]
        · simp
          omega
        · rw [← hs]
          simp [streamOf, recvqOf, hcn]
          exact hns.2
    · rw [sockRead_of_le_buf sc len hlen hge] at h
      simp at h
      obtain ⟨ho, -, hs⟩ := h
      subst ho
      refine ⟨?_, ?_, ?_⟩
      · rw [← hs]
      · rw [List.length_take]
        omega
      · rw [← hs]
        simp [streamOf, recvqOf]
        rw [← List.append_assoc, List.take_append_drop]

/-- A successful `CheckReadable` on a state whose pending holds at most one
byte leaves pending holding at most one byte and conserves the undelivered
stream exactly. -/
theorem checkReadable_ok_inv (sc : SocketConn) (now t : Nat) (e : Option GoErr)
    (sf : SocketConn) (hbuf : sc.buf.length ≤ 1)
    (h : checkReadable sc now t = CheckResult.ok e sf) :
    sf.buf.length ≤ 1 ∧ streamOf sf = streamOf sc := by
  cases hcn : sc.conn with
  | none => simp [checkReadable, hcn] at h
  | some c =>
    cases hr : sockRead { sc with conn := some { c with deadline := some (now + t) } } 1 with
    | probe => simp [checkReadable, hcn, hr] at h
    | panic => simp [checkReadable, hcn, hr] at h
    | bytes out err s2 =>
      have hinv := sockRead_bytes_inv _ 1 out err s2 hr
      have hs2b : s2.buf = [] := by
        have h1 := hinv.1
        simp at h1
        have h2 : sc.buf.tail.length = 0 := by
          rw [List.length_tail]
          omega
        rw [h1]
        exact List.eq_nil_of_length_eq_zero h2
      have hstream1 :
          streamOf { sc with conn := some { c with deadline := some (now + t) } } =
            streamOf sc := by
        simp [streamOf, recvqOf, hcn]
      have hcons : out ++ streamOf s2 = streamOf sc := by
        rw [← hstream1]
        exact hinv.2.2
      cases hc3 : s2.conn with
      | none =>
        cases out with
        | nil => simp [checkReadable, hcn, hr, hc3] at h
        | cons o os => simp [checkReadable, hcn, hr, hc3] at h
      | some c3 =>
        have hs2s : streamOf s2 = c3.recvq := by
          simp [streamOf, recvqOf, hc3, hs2b]
        cases out with
        | nil =>
          simp [checkReadable, hcn, hr, hc3] at h
          obtain ⟨-, hsf⟩ := h
          rw [← hsf]
          constructor
          · simp [hs2b]
          · simp [streamOf, recvqOf]
            rw [← hs2s, hs2b]
            simpa using hcons
        | cons o os =>
          simp [checkReadable, hcn, hr, hc3] at h
          obtain ⟨-, hsf⟩ := h
          rw [← hsf]
          constructor
          · have h21 := hinv.2.1
            simp at h21
            simp [hs2b, h21]
          · simp [streamOf, recvqOf, hs2b]
            rw [← hs2s]
            simpa using hcons

/-- A caller-visible operation on the wrapper: a `Read` with a buffer of the
given length, or a `CheckReadable` probe at a given time with a given
timeout. -/
inductive ConnOp where
  | read (len : Nat)
  | check (now t : Nat)
  deriving DecidableEq, Repr

/-- One operation on a wrapper state: the bytes it delivered to the caller
and the post-state, or `none` if the call panicked or took the unmodelled
zero-length (`read0`) path. -/
def stepOp (sc : SocketConn) (op : ConnOp) : Option (List Nat × SocketConn) :=
  match op with
  | ConnOp.read len =>
    match sockRead sc len with
    | ReadResult.bytes out _ s2 => some (out, s2)
    | _ => none
  | ConnOp.check now t =>
    match checkReadable sc now t with
    | CheckResult.ok _ s2 => some ([], s2)
    | _ => none

/-- Run a sequence of operations, concatenating the bytes delivered to the
caller. -/
def runOps (sc : SocketConn) : List ConnOp → Option (List Nat × SocketConn)
  | [] => some ([], sc)
  | op :: ops =>
    match stepOp sc op with
    | none => none
    | some (out, s2) =>
      match runOps s2 ops with
      | none => none
      | some (outs, s3) => some (out ++ outs, s3)

/-- One successful operation preserves the at-most-one-pending-byte invariant
and conserves the undelivered stream. -/
theorem stepOp_inv (sc : SocketConn) (op : ConnOp) (out : List Nat)
    (s2 : SocketConn) (hbuf : sc.buf.length ≤ 1)
    (h : stepOp sc op = some (out, s2)) :
    s2.buf.length ≤ 1 ∧ out ++ streamOf s2 = streamOf sc := by
  cases op with
  | read len =>
    cases hr : sockRead sc len with
    | probe => simp [stepOp, hr] at h
    | panic => simp [stepOp, hr] at h
    | bytes o e s =>
      simp [stepOp, hr] at h
      obtain ⟨ho, hs⟩ := h
      subst ho hs
      have hinv := sockRead_bytes_inv sc len o e s hr
      refine ⟨?_, hinv.2.2⟩
      rw [hinv.1, List.length_drop]
      omega
  | check now t =>
    cases hr : checkReadable sc now t with
    | panic => simp [stepOp, hr] at h
    | ok e s =>
      simp [stepOp, hr] at h
      obtain ⟨ho, hs⟩ := h
      subst hs
      have hinv := checkReadable_ok_inv sc now t e s hbuf hr
      simp [← ho, hinv.1, hinv.2]

/-- Running any sequence of successful operations preserves the invariant
and conserves the stream. -/
theorem runOps_inv (ops : List ConnOp) : ∀ (sc : SocketConn) (out : List Nat)
    (s2 : SocketConn), sc.buf.length ≤ 1 → runOps sc ops = some (out, s2) →
    s2.buf.length ≤ 1 ∧ out ++ streamOf s2 = streamOf sc := by
  induction ops with
  | nil =>
    intro sc out s2 hbuf h
    simp [runOps] at h
    obtain ⟨ho, hs⟩ := h
    subst ho hs
    simp [hbuf]
  | cons op ops ih =>
    intro sc out s2 hbuf h
    cases hst : stepOp sc op with
    | none => simp [runOps, hst] at h
    | some p =>
      rcases p with ⟨out1, s1⟩
      cases hrn : runOps s1 ops with
      | none => simp [runOps, hst, hrn] at h
      | some q =>
        rcases q with ⟨outs, s3⟩
        simp [runOps, hst, hrn] at h
        obtain ⟨ho, hs⟩ := h
        subst hs
        have h1 := stepOp_inv sc op out1 s1 hbuf hst
        have h2 := ih s1 outs s3 h1.1 hrn
        refine ⟨h2.1, ?_⟩
        rw [← ho, List.append_assoc, h2.2, h1.2]

/-- Claim C9: starting from a freshly constructed wrapper (empty pending)
over any connection, after every finite sequence of successful `Read` and
`CheckReadable` calls the pending buffer holds at most one byte. -/
theorem pending_at_most_one (c : NetConn) (ops : List ConnOp) (out : List Nat)
    (s : SocketConn)
    (h : runOps { conn := some c, buf := [] } ops = some (out, s)) :
    s.buf.length ≤ 1 :=
  (runOps_inv ops { conn := some c, buf := [] } out s (by simp) h).1

/-- Claim C2: for every byte sequence `B` delivered by the underlying
connection (any wire read plan), any sequence of `Read` calls interleaved
with `CheckReadable` probes delivers exactly a prefix of `B` in order (what
was delivered, then pending, then the unread wire, reassembles `B`), and
when the delivered count reaches `len(B)` the output is exactly `B`: probes
never duplicate, drop, or reorder stream bytes. -/
theorem stream_order_preserved (B : List Nat) (plan : List (Nat × Option GoErr))
    (d : Option Nat) (ops : List ConnOp) (out : List Nat) (s : SocketConn)
    (h : runOps { conn := some { recvq := B, plan := plan, deadline := d }, buf := [] } ops
          = some (out, s)) :
    out ++ streamOf s = B ∧ (out.length = B.length → out = B) := by
  have hinv := (runOps_inv ops
    { conn := some { recvq := B, plan := plan, deadline := d }, buf := [] } out s
    (by simp) h).2
  have hB : streamOf
      { conn := some { recvq := B, plan := plan, deadline := d }, buf := [] } = B := by
    simp [streamOf, recvqOf]
  rw [hB] at hinv
  refine ⟨hinv, fun hlen => ?_⟩
  have hl : (out ++ streamOf s).length = B.length := by rw [hinv]
  simp at hl
  have hnil : streamOf s = [] := List.eq_nil_of_length_eq_zero (by omega)
  simpa [hnil] using hinv

/-- Witness for C9: a probe followed by a 2-byte read on a fresh wrapper
over `c0` succeeds and leaves pending with at most one byte. -/
theorem pending_at_most_one_witness :
    runOps { conn := some c0, buf := [] } [ConnOp.check 0 5, ConnOp.read 2] =
      some ([10, 20],
        { conn := some { recvq := [30], plan := [], deadline := none }, buf := [] }) ∧
    ({ conn := some { recvq := [30], plan := [], deadline := none },
        buf := [] } : SocketConn).buf.length ≤ 1 :=
  ⟨by decide,
    pending_at_most_one c0 [ConnOp.check 0 5, ConnOp.read 2] [10, 20]
      { conn := some { recvq := [30], plan := [], deadline := none }, buf := [] }
      (by decide)⟩

/-- The final wrapper state of the C2 witness run: wire fully drained. -/
def sEnd : SocketConn :=
  { conn := some { recvq := [], plan := [], deadline := none }, buf := [] }

/-- Witness for C2: reads chunked as 1 + 2 bytes around a probe deliver
`B = [10, 20, 30]` exactly, in order. -/
theorem stream_order_preserved_witness :
    runOps { conn := some c0, buf := [] }
        [ConnOp.check 0 5, ConnOp.read 1, ConnOp.read 2] =
      some ([10, 20, 30], sEnd) ∧
    [10, 20, 30] ++ streamOf sEnd = [10, 20, 30] ∧
    [10, 20, 30] = [10, 20, 30] := by
  have h := stream_order_preserved [10, 20, 30] [(1, none), (2, none)] none
    [ConnOp.check 0 5, ConnOp.read 1, ConnOp.read 2] [10, 20, 30] sEnd (by decide)
  exact ⟨by decide, h.1, h.2 (by decide)⟩
